import Mathlib

set_option maxHeartbeats 1000000

/-!
# Verification of the LC-3 virtual machine

Shallow embedding of the LC-3 interpreter (`src/lib.rs`, `src/memory.rs`,
`src/registers.rs`).  Machine words are `Nat` values below `2^16`; wrapping
`u16` arithmetic is written with an explicit `% 65536` (release-mode Rust
semantics: `+=`, `-=`, `wrapping_add` wrap, and shift amounts are masked by
the bit width).  Host character input is modelled by the list of bytes that
successive `get_char` calls will return (the empty list standing for a host
that keeps returning `0`); characters sent to `put_char` are accumulated in
an output list.  Memory additionally carries a ghost `trace` of the accesses
performed, used only to state theorems; no executable definition branches
on it.
-/

/-- Opcodes, bits 15..12 of an instruction word (src/lib.rs `enum OP`). -/
inductive OP
  | BR | ADD | LD | ST | JSR | AND | LDR | STR
  | RTI | NOT | LDI | STI | JMP | RES | LEA | TRAP
  deriving DecidableEq

/-- Decoding of the opcode nibble (`OP::from_u16` via the Primitive derive). -/
def OP.from_u16 (n : Nat) : Option OP :=
  match n with
  | 0 => some .BR | 1 => some .ADD | 2 => some .LD | 3 => some .ST
  | 4 => some .JSR | 5 => some .AND | 6 => some .LDR | 7 => some .STR
  | 8 => some .RTI | 9 => some .NOT | 10 => some .LDI | 11 => some .STI
  | 12 => some .JMP | 13 => some .RES | 14 => some .LEA | 15 => some .TRAP
  | _ => none

/-- Trap vectors (src/lib.rs `enum TRAP`). -/
inductive TRAP
  | GETC | OUT | PUTS | IN | PUTSP | HALT
  deriving DecidableEq

/-- Decoding of the trap vector (`TRAP::from_u16`). -/
def TRAP.from_u16 (n : Nat) : Option TRAP :=
  match n with
  | 0x20 => some .GETC
  | 0x21 => some .OUT
  | 0x22 => some .PUTS
  | 0x23 => some .IN
  | 0x24 => some .PUTSP
  | 0x25 => some .HALT
  | _ => none

/-- Step status reported to the driver (src/lib.rs `enum STATUS`). -/
inductive STATUS
  | Halted | Continue | SoftInterrupt | HardInterrupt
  deriving DecidableEq

/-- Ghost record of one memory access (instrumentation, not in the source). -/
inductive Access
  | read (addr : Nat)
  | write (addr val : Nat)
  deriving DecidableEq

/-- The 2^16-word memory (src/memory.rs `struct Memory`), with a ghost trace
of the accesses performed on it. -/
structure Memory where
  data : Nat → Nat
  trace : List Access

/-- Raw array store `self.0[addr] = val` (no trace entry, no MMIO logic). -/
def Memory.store (m : Memory) (addr val : Nat) : Memory :=
  { m with data := fun a => if a = addr then val else m.data a }

/-- Host `io::get_char`: pops the next pending byte, `0` when none is left. -/
def get_char : List Nat → Nat × List Nat
  | [] => (0, [])
  | c :: rest => (c % 256, rest)

/-- `Memory::read` (src/memory.rs): a read of the keyboard status address
`0xFE00` sets the keyboard-check word `0xFE04` to 1 and polls the host,
storing `0x8000`/the character at `0xFE00`/`0xFE02` when one is available and
`0` at `0xFE00` otherwise; every other read clears `0xFE04`.  Returns the
updated memory, the remaining host input, and the word read. -/
def Memory.read (m : Memory) (input : List Nat) (addr : Nat) :
    Memory × List Nat × Nat :=
  let m0 : Memory := { m with trace := m.trace ++ [Access.read addr] }
  if addr = 0xFE00 then
    let m1 := m0.store 0xFE04 1
    let t := get_char input
    let m2 := if t.1 ≠ 0 then (m1.store 0xFE00 0x8000).store 0xFE02 t.1
              else m1.store 0xFE00 0
    (m2, t.2, m2.data addr)
  else
    let m1 := m0.store 0xFE04 0
    (m1, input, m1.data addr)

/-- `Memory::write`: unconditional store, no MMIO side effects. -/
def Memory.write (m : Memory) (addr val : Nat) : Memory :=
  { m.store addr val with trace := m.trace ++ [Access.write addr val] }

/-- `Memory::kbstatus`: the keyboard-check word at `0xFE04`. -/
def Memory.kbstatus (m : Memory) : Nat :=
  m.data 0xFE04

/-- Well-formedness: every cell holds a `u16` value. -/
def Memory.WF (m : Memory) : Prop :=
  ∀ a, m.data a < 65536

/-- The register file (src/registers.rs `struct Registers`). -/
structure Registers where
  r0 : Nat
  r1 : Nat
  r2 : Nat
  r3 : Nat
  r4 : Nat
  r5 : Nat
  r6 : Nat
  r7 : Nat
  program_count : Nat
  condition : Nat

/-- `Registers::default`: zero registers, `PC = 0x3000`, `COND = Z`. -/
def Registers.default : Registers :=
  { r0 := 0, r1 := 0, r2 := 0, r3 := 0, r4 := 0, r5 := 0, r6 := 0, r7 := 0
    program_count := 0x3000, condition := 0b010 }

/-- `Registers::get`: the register selected by the low three bits of `r`. -/
def Registers.get (regs : Registers) (r : Nat) : Nat :=
  match r &&& 0x7 with
  | 0 => regs.r0
  | 1 => regs.r1
  | 2 => regs.r2
  | 3 => regs.r3
  | 4 => regs.r4
  | 5 => regs.r5
  | 6 => regs.r6
  | 7 => regs.r7
  | _ => 0  -- unreachable: r &&& 0x7 < 8

/-- `Registers::set`: assign the selected register, then update the condition
register from the sign of the written value. -/
def Registers.set (regs : Registers) (r value : Nat) : Registers :=
  let updated : Registers :=
    match r &&& 0x7 with
    | 0 => { regs with r0 := value }
    | 1 => { regs with r1 := value }
    | 2 => { regs with r2 := value }
    | 3 => { regs with r3 := value }
    | 4 => { regs with r4 := value }
    | 5 => { regs with r5 := value }
    | 6 => { regs with r6 := value }
    | 7 => { regs with r7 := value }
    | _ => regs  -- unreachable: r &&& 0x7 < 8
  { updated with
    condition := if value = 0 then 0b010
                 else if 0x8000 ≤ value then 0b100 else 0b001 }

/-- `sign_extend` (src/lib.rs): release-mode `u16`/`u8` semantics, so both
shift amounts act modulo 16 (`bit_count - 1` additionally wraps as a `u8`,
hence `(bit_count + 15) % 16`). -/
def sign_extend (orig : Nat) (bit_count : Nat) : Nat :=
  if (orig >>> ((bit_count + 15) % 16)) &&& 1 = 1 then
    (orig ||| (0xFFFF <<< (bit_count % 16))) % 65536
  else
    orig

/-- `Registers::next`: instruction fetch.  Saves `PC`, increments it with
16-bit wrap, reads memory at the saved `PC` and decodes the top nibble. -/
def Registers.next (regs : Registers) (memory : Memory) (input : List Nat) :
    Registers × Memory × List Nat × Nat × Option OP :=
  let pc := regs.program_count
  let regs1 := { regs with program_count := (regs.program_count + 1) % 65536 }
  let t := memory.read input pc
  (regs1, t.1, t.2.1, t.2.2, OP.from_u16 (t.2.2 >>> 12))

/-- The virtual machine (src/lib.rs `struct VM`), plus the modelled host
input/output byte streams. -/
structure VM where
  halted : Bool
  memory : Memory
  registers : Registers
  input : List Nat
  output : List Nat

/-- `OP::ADD` arm of `VM::step`. -/
def execADD (vm : VM) (instr : Nat) : VM × Option STATUS :=
  let dr := (instr >>> 9) &&& 0x7
  let sr1 := (instr >>> 6) &&& 0x7
  let value := if (instr >>> 5) &&& 1 ≠ 0 then sign_extend (instr &&& 0x1F) 5
               else vm.registers.get (instr &&& 0x7)
  ({ vm with registers :=
      vm.registers.set dr ((vm.registers.get sr1 + value) % 65536) }, none)

/-- `OP::AND` arm of `VM::step`. -/
def execAND (vm : VM) (instr : Nat) : VM × Option STATUS :=
  let dr := (instr >>> 9) &&& 0x7
  let sr1 := (instr >>> 6) &&& 0x7
  let value := if (instr >>> 5) &&& 1 ≠ 0 then sign_extend (instr &&& 0x1F) 5
               else vm.registers.get (instr &&& 0x7)
  ({ vm with registers :=
      vm.registers.set dr (vm.registers.get sr1 &&& value) }, none)

/-- `OP::NOT` arm of `VM::step` (`!x` on a `u16` is `x XOR 0xFFFF`). -/
def execNOT (vm : VM) (instr : Nat) : VM × Option STATUS :=
  let dr := (instr >>> 9) &&& 0x7
  let sr := (instr >>> 6) &&& 0x7
  ({ vm with registers :=
      vm.registers.set dr (vm.registers.get sr ^^^ 0xFFFF) }, none)

/-- `OP::BR` arm of `VM::step`. -/
def execBR (vm : VM) (instr : Nat) : VM × Option STATUS :=
  let pc_offset := sign_extend (instr &&& 0x1FF) 9
  let cond_flag := (instr >>> 9) &&& 0x7
  if cond_flag &&& vm.registers.condition ≠ 0 then
    ({ vm with registers := { vm.registers with
        program_count := (vm.registers.program_count + pc_offset) % 65536 } },
     none)
  else (vm, none)

/-- `OP::JMP` arm of `VM::step`. -/
def execJMP (vm : VM) (instr : Nat) : VM × Option STATUS :=
  ({ vm with registers := { vm.registers with
      program_count := vm.registers.get ((instr >>> 6) &&& 0x7) } }, none)

/-- `OP::JSR` arm of `VM::step`. -/
def execJSR (vm : VM) (instr : Nat) : VM × Option STATUS :=
  let regs0 := { vm.registers with r7 := vm.registers.program_count }
  if (instr >>> 11) &&& 1 ≠ 0 then
    ({ vm with registers := { regs0 with
        program_count :=
          (regs0.program_count + sign_extend (instr &&& 0x7FF) 11) % 65536 } },
     none)
  else
    ({ vm with registers := { regs0 with
        program_count := regs0.get ((instr >>> 6) &&& 0x7) } }, none)

/-- `OP::LD` arm of `VM::step`. -/
def execLD (vm : VM) (instr : Nat) : VM × Option STATUS :=
  let dr := (instr >>> 9) &&& 0x7
  let address :=
    (vm.registers.program_count + sign_extend (instr &&& 0x1FF) 9) % 65536
  let t := vm.memory.read vm.input address
  ({ vm with
     memory := t.1,
     input := t.2.1,
     registers := vm.registers.set dr t.2.2 }, none)

/-- `OP::LDI` arm of `VM::step`: two chained reads. -/
def execLDI (vm : VM) (instr : Nat) : VM × Option STATUS :=
  let dr := (instr >>> 9) &&& 0x7
  let address :=
    (vm.registers.program_count + sign_extend (instr &&& 0x1FF) 9) % 65536
  let t := vm.memory.read vm.input address
  let t2 := t.1.read t.2.1 t.2.2
  ({ vm with
     memory := t2.1,
     input := t2.2.1,
     registers := vm.registers.set dr t2.2.2 }, none)

/-- `OP::LDR` arm of `VM::step`. -/
def execLDR (vm : VM) (instr : Nat) : VM × Option STATUS :=
  let dr := (instr >>> 9) &&& 0x7
  let sr := (instr >>> 6) &&& 0x7
  let address :=
    (vm.registers.get sr + sign_extend (instr &&& 0x3F) 6) % 65536
  let t := vm.memory.read vm.input address
  ({ vm with
     memory := t.1,
     input := t.2.1,
     registers := vm.registers.set dr t.2.2 }, none)

/-- `OP::LEA` arm of `VM::step`. -/
def execLEA (vm : VM) (instr : Nat) : VM × Option STATUS :=
  let dr := (instr >>> 9) &&& 0x7
  let value :=
    (vm.registers.program_count + sign_extend (instr &&& 0x1FF) 9) % 65536
  ({ vm with registers := vm.registers.set dr value }, none)

/-- `OP::ST` arm of `VM::step`. -/
def execST (vm : VM) (instr : Nat) : VM × Option STATUS :=
  let sr := (instr >>> 9) &&& 0x7
  let address :=
    (vm.registers.program_count + sign_extend (instr &&& 0x1FF) 9) % 65536
  ({ vm with memory := vm.memory.write address (vm.registers.get sr) }, none)

/-- `OP::STI` arm of `VM::step`: read the pointer word, then store. -/
def execSTI (vm : VM) (instr : Nat) : VM × Option STATUS :=
  let sr := (instr >>> 9) &&& 0x7
  let address :=
    (vm.registers.program_count + sign_extend (instr &&& 0x1FF) 9) % 65536
  let t := vm.memory.read vm.input address
  ({ vm with
     memory := t.1.write t.2.2 (vm.registers.get sr),
     input := t.2.1 }, none)

/-- `OP::STR` arm of `VM::step` (the source calls the base register `dr`). -/
def execSTR (vm : VM) (instr : Nat) : VM × Option STATUS :=
  let sr := (instr >>> 9) &&& 0x7
  let dr := (instr >>> 6) &&& 0x7
  let address := (vm.registers.get dr + sign_extend (instr &&& 0x3F) 6) % 65536
  ({ vm with memory := vm.memory.write address (vm.registers.get sr) }, none)

/-- The `TRAP::PUTS` loop: while `memory.read(c) != 0`, emit the word read by
a second `memory.read(c)` as a byte and advance `c`.  The source loop need
not terminate, so the model bounds the number of iterations by a fuel
argument; the fuel chosen in `execTRAP` covers every run the claims touch. -/
def putsLoop (m : Memory) (input out : List Nat) (c fuel : Nat) :
    Memory × List Nat × List Nat :=
  match fuel with
  | 0 => (m, input, out)
  | fuel + 1 =>
    let t := m.read input c
    if t.2.2 ≠ 0 then
      let t2 := t.1.read t.2.1 c
      putsLoop t2.1 t2.2.1 (out ++ [t2.2.2 % 256]) ((c + 1) % 65536) fuel
    else (t.1, t.2.1, out)

/-- The `TRAP::PUTSP` loop: three `memory.read(c)` calls per iteration (guard,
low byte, high byte), emitting the low byte and a nonzero high byte. -/
def putspLoop (m : Memory) (input out : List Nat) (c fuel : Nat) :
    Memory × List Nat × List Nat :=
  match fuel with
  | 0 => (m, input, out)
  | fuel + 1 =>
    let t := m.read input c
    if t.2.2 ≠ 0 then
      let t1 := t.1.read t.2.1 c
      let out1 := out ++ [t1.2.2 &&& 0xFF]
      let t2 := t1.1.read t1.2.1 c
      let c2 := t2.2.2 >>> 8
      let out2 := if c2 ≠ 0 then out1 ++ [c2 % 256] else out1
      putspLoop t2.1 t2.2.1 out2 ((c + 1) % 65536) fuel
    else (t.1, t.2.1, out)

/-- `OP::TRAP` arm of `VM::step`.  `R7 := PC` happens before the vector
dispatch; `GETC`/`IN` with no available character roll `PC` back by one
(16-bit wrapping) and return `HardInterrupt`. -/
def execTRAP (vm : VM) (instr : Nat) : VM × Option STATUS :=
  let vm := { vm with registers :=
      { vm.registers with r7 := vm.registers.program_count } }
  match TRAP.from_u16 (instr &&& 0xFF) with
  | some TRAP.GETC =>
    let t := get_char vm.input
    if t.1 = 0 then
      ({ vm with input := t.2, registers := { vm.registers with
          program_count := (vm.registers.program_count + 65535) % 65536 } },
       some STATUS.HardInterrupt)
    else
      ({ vm with input := t.2, registers := vm.registers.set 0 t.1 }, none)
  | some TRAP.OUT =>
      ({ vm with output := vm.output ++ [vm.registers.r0 % 256] }, none)
  | some TRAP.PUTS =>
    let t := putsLoop vm.memory vm.input vm.output vm.registers.r0
               ((vm.input.length + 2) * 65536)
    ({ vm with memory := t.1, input := t.2.1, output := t.2.2 }, none)
  | some TRAP.IN =>
    let t := get_char vm.input
    if t.1 = 0 then
      ({ vm with input := t.2, registers := { vm.registers with
          program_count := (vm.registers.program_count + 65535) % 65536 } },
       some STATUS.HardInterrupt)
    else
      ({ vm with
         input := t.2,
         output := vm.output ++ [t.1],
         registers := vm.registers.set 0 t.1 }, none)
  | some TRAP.PUTSP =>
    let t := putspLoop vm.memory vm.input vm.output vm.registers.r0
               ((vm.input.length + 2) * 65536)
    ({ vm with memory := t.1, input := t.2.1, output := t.2.2 }, none)
  | some TRAP.HALT => (vm, some STATUS.Halted)
  | none => (vm, some STATUS.Halted)

/-- Dispatch of the decoded opcode inside `VM::step`.  A returned `some`
status models an early `return`; `none` falls through to the common
keyboard-check test at the bottom of `step`. -/
def execOp (vm : VM) (op : OP) (instr : Nat) : VM × Option STATUS :=
  match op with
  | OP.ADD => execADD vm instr
  | OP.AND => execAND vm instr
  | OP.NOT => execNOT vm instr
  | OP.BR => execBR vm instr
  | OP.JMP => execJMP vm instr
  | OP.JSR => execJSR vm instr
  | OP.LD => execLD vm instr
  | OP.LDI => execLDI vm instr
  | OP.LDR => execLDR vm instr
  | OP.LEA => execLEA vm instr
  | OP.ST => execST vm instr
  | OP.STI => execSTI vm instr
  | OP.STR => execSTR vm instr
  | OP.TRAP => execTRAP vm instr
  | OP.RES => (vm, some STATUS.Halted)
  | OP.RTI => (vm, some STATUS.Halted)

/-- `VM::step`: fetch and decode, halt on decode failure, execute the arm,
and on fall-through report `SoftInterrupt` when the keyboard-check word is
nonzero and `Continue` otherwise. -/
def VM.step (vm : VM) : VM × STATUS :=
  let f := vm.registers.next vm.memory vm.input
  let vm1 : VM := { vm with registers := f.1, memory := f.2.1, input := f.2.2.1 }
  match f.2.2.2.2 with
  | none => (vm1, STATUS.Halted)
  | some op =>
    let e := execOp vm1 op f.2.2.2.1
    match e.2 with
    | some st => (e.1, st)
    | none =>
      (e.1, if e.1.memory.kbstatus ≠ 0 then STATUS.SoftInterrupt
            else STATUS.Continue)

/-- One iteration of the body of the non-WASM `VM::run` loop: on `Halted` the
source assigns `self.halted = false`; every other status leaves it alone. -/
def runStep (vm : VM) : VM :=
  let t := vm.step
  match t.2 with
  | STATUS.Halted => { t.1 with halted := false }
  | _ => t.1

/-- The non-WASM `VM::run` `while !self.halted` loop, bounded by fuel. -/
def VM.run (vm : VM) : Nat → VM
  | 0 => vm
  | fuel + 1 => if vm.halted then vm else (runStep vm).run fuel

/-- The data-loading loop of `read_image`: while `offset < max_offset`, take
the next big-endian word from the stream and store it at `addr + offset`;
a stream that ends (even on a partial, odd trailing byte) stops the loop. -/
def load_words (m : Memory) (addr offset max_offset : Nat)
    (bytes : List Nat) : Memory :=
  match bytes with
  | b1 :: b2 :: rest =>
    if offset < max_offset then
      load_words (m.write (addr + offset) (b1 * 256 + b2)) addr (offset + 1)
        max_offset rest
    else m
  | _ => m

/-- `read_image` (src/lib.rs): decode the two-byte big-endian origin (failing
when the stream is shorter than two bytes), then load at most
`(MEMORY_SIZE - origin) as u16` words, stopping cleanly at end of stream. -/
def read_image (memory : Memory) (image : List Nat) :
    Option (Memory × Nat) :=
  match image with
  | b1 :: b2 :: rest =>
    let addr := b1 * 256 + b2
    let max_offset := (65536 - addr) % 65536
    some (load_words memory addr 0 max_offset rest, addr)
  | _ => none

/-- `Memory::default`: all cells zero. -/
def mem0 : Memory := { data := fun _ => 0, trace := [] }

/-- The value of the keyboard-check word `0xFE04` after one more access:
every read rewrites it (1 for the poll address, 0 otherwise), and a direct
store to `0xFE04` overwrites it. -/
def flagStep (flag : Nat) (a : Access) : Nat :=
  match a with
  | Access.read addr => if addr = 0xFE00 then 1 else 0
  | Access.write addr v => if addr = 0xFE04 then v else flag

/-- The keyboard-check word after a sequence of accesses. -/
def flagFold (flag : Nat) (tr : List Access) : Nat :=
  tr.foldl flagStep flag

/-- Memory `m1` is reachable from `m0` by the accesses appended to the trace,
and its keyboard-check word is determined by them. -/
def Memory.Evolves (m0 m1 : Memory) : Prop :=
  ∃ t, m1.trace = m0.trace ++ t ∧
    m1.data 0xFE04 = flagFold (m0.data 0xFE04) t

/-- Concrete state for the GETC-suspension scenario: default registers
(`PC = 0x3000`, `R7 = 0`), `TRAP 0x20` at `0x3000`, no input available. -/
def vmGetc : VM :=
  { halted := false
    memory := { data := fun a => if a = 0x3000 then 0xF020 else 0, trace := [] }
    registers := Registers.default
    input := []
    output := [] }

/-- Concrete state whose LDI instruction at `0xFDFF` makes its first memory
read target the keyboard poll address `0xFE00` and then reads once more. -/
def vmLDI : VM :=
  { halted := false
    memory := { data := fun a => if a = 0xFDFF then 0xA200 else 0, trace := [] }
    registers := { Registers.default with program_count := 0xFDFF }
    input := []
    output := [] }

/-- Concrete state with a lone `HALT` trap at `0x3000`. -/
def vmHalt : VM :=
  { halted := false
    memory := { data := fun a => if a = 0x3000 then 0xF025 else 0, trace := [] }
    registers := Registers.default
    input := []
    output := [] }

/-- The arithmetic-wrap image `[0x1021, 0xF025]` loaded at origin `0x3000`. -/
def imgC9 : Memory × Nat :=
  match read_image mem0 [0x30, 0x00, 0x10, 0x21, 0xF0, 0x25] with
  | some r => r
  | none => (mem0, 0)

/-- Arithmetic-wrap scenario: the loaded image with `R0` preset to `0xFFFF`
and `PC` at the load origin. -/
def vmC9 : VM :=
  { halted := false
    memory := imgC9.1
    registers := { Registers.default with r0 := 0xFFFF, program_count := imgC9.2 }
    input := []
    output := [] }

/-! ## Basic lemmas about the memory controller -/

theorem Memory.store_data (m : Memory) (addr v a : Nat) :
    (m.store addr v).data a = if a = addr then v else m.data a := rfl

theorem Memory.store_trace (m : Memory) (addr v : Nat) :
    (m.store addr v).trace = m.trace := rfl

theorem Memory.write_data (m : Memory) (addr v a : Nat) :
    (m.write addr v).data a = if a = addr then v else m.data a := rfl

theorem Memory.write_trace (m : Memory) (addr v : Nat) :
    (m.write addr v).trace = m.trace ++ [Access.write addr v] := rfl

/-- A read changes no data cell outside the three MMIO words. -/
theorem Memory.read_data_of_ne (m : Memory) (input : List Nat) (addr a : Nat)
    (h0 : a ≠ 0xFE00) (h2 : a ≠ 0xFE02) (h4 : a ≠ 0xFE04) :
    ((m.read input addr).1).data a = m.data a := by
  unfold Memory.read
  by_cases h : addr = 0xFE00
  · by_cases hc : (get_char input).1 ≠ 0 <;>
      simp [h, hc, Memory.store, h0, h2, h4]
  · simp [h, Memory.store, h4]

/-- A read appends exactly one entry to the ghost trace. -/
theorem Memory.read_trace (m : Memory) (input : List Nat) (addr : Nat) :
    ((m.read input addr).1).trace = m.trace ++ [Access.read addr] := by
  unfold Memory.read
  by_cases h : addr = 0xFE00
  · by_cases hc : (get_char input).1 ≠ 0 <;> simp [h, hc, Memory.store]
  · simp [h, Memory.store]

/-- Every read rewrites the keyboard-check word: 1 when it polled `0xFE00`,
0 otherwise. -/
theorem Memory.read_flag (m : Memory) (input : List Nat) (addr : Nat) :
    ((m.read input addr).1).data 0xFE04 = if addr = 0xFE00 then 1 else 0 := by
  unfold Memory.read
  by_cases h : addr = 0xFE00
  · by_cases hc : (get_char input).1 ≠ 0 <;> simp [h, hc, Memory.store]
  · simp [h, Memory.store]

/-- The word returned by a read of an address other than the two keyboard
MMIO registers and the check word is the stored word. -/
theorem Memory.read_val_of_ne (m : Memory) (input : List Nat) (addr : Nat)
    (h0 : addr ≠ 0xFE00) (h4 : addr ≠ 0xFE04) :
    (m.read input addr).2.2 = m.data addr := by
  unfold Memory.read
  simp [h0, Memory.store, h4]

/-! ## The keyboard-check word as a function of the access trace -/

theorem Memory.evolves_refl (m : Memory) : m.Evolves m :=
  ⟨[], by simp, by simp [flagFold]⟩

theorem Memory.evolves_trans {m0 m1 m2 : Memory}
    (h1 : m0.Evolves m1) (h2 : m1.Evolves m2) : m0.Evolves m2 := by
  obtain ⟨t1, ht1, hf1⟩ := h1
  obtain ⟨t2, ht2, hf2⟩ := h2
  exact ⟨t1 ++ t2, by simp [ht2, ht1],
    by simp [flagFold, List.foldl_append, hf2, hf1]⟩

theorem Memory.evolves_read (m : Memory) (input : List Nat) (addr : Nat) :
    m.Evolves (m.read input addr).1 := by
  refine ⟨[Access.read addr], m.read_trace input addr, ?_⟩
  rw [m.read_flag input addr]
  simp [flagFold, flagStep]

theorem Memory.evolves_write (m : Memory) (addr v : Nat) :
    m.Evolves (m.write addr v) := by
  refine ⟨[Access.write addr v], rfl, ?_⟩
  by_cases h : addr = 0xFE04
  · simp [flagFold, flagStep, Memory.write_data, h]
  · simp [flagFold, flagStep, Memory.write_data, h]
    intro h2
    exact absurd h2.symm h

theorem putsLoop_evolves (fuel : Nat) :
    ∀ (m : Memory) (input out : List Nat) (c : Nat),
      m.Evolves (putsLoop m input out c fuel).1 := by
  induction fuel with
  | zero => intro m input out c; exact m.evolves_refl
  | succ fuel ih =>
    intro m input out c
    unfold putsLoop
    dsimp only
    split
    · exact Memory.evolves_trans (m.evolves_read input c)
        (Memory.evolves_trans
          ((m.read input c).1.evolves_read (m.read input c).2.1 c) (ih _ _ _ _))
    · exact m.evolves_read input c

theorem putspLoop_evolves (fuel : Nat) :
    ∀ (m : Memory) (input out : List Nat) (c : Nat),
      m.Evolves (putspLoop m input out c fuel).1 := by
  induction fuel with
  | zero => intro m input out c; exact m.evolves_refl
  | succ fuel ih =>
    intro m input out c
    unfold putspLoop
    dsimp only
    split
    · refine Memory.evolves_trans (m.evolves_read input c) ?_
      refine Memory.evolves_trans
        ((m.read input c).1.evolves_read (m.read input c).2.1 c) ?_
      exact Memory.evolves_trans
        (((m.read input c).1.read (m.read input c).2.1 c).1.evolves_read _ c)
        (ih _ _ _ _)
    · exact m.evolves_read input c

/-! ## Register-file lemmas -/

/-- The condition register after `Registers::set` depends only on the sign
of the written value. -/
theorem Registers.set_condition (regs : Registers) (r value : Nat) :
    (regs.set r value).condition =
      if value = 0 then 2 else if 0x8000 ≤ value then 4 else 1 := rfl

theorem Registers.set_program_count (regs : Registers) (r value : Nat) :
    (regs.set r value).program_count = regs.program_count := by
  unfold Registers.set
  have h : r &&& 0x7 < 8 := Nat.lt_succ_of_le (Nat.and_le_right)
  set k := r &&& 0x7 with hk
  interval_cases k <;> rfl

/-- Exactly one of the N/Z/P flags: the condition word is 1, 2 or 4. -/
def condOK (c : Nat) : Prop := c = 1 ∨ c = 2 ∨ c = 4

theorem condOK_set (regs : Registers) (r v : Nat) :
    condOK ((regs.set r v).condition) := by
  rw [Registers.set_condition]
  unfold condOK
  by_cases h0 : v = 0 <;> by_cases h8 : 0x8000 ≤ v <;> simp [h0, h8]

/-- No instruction arm changes memory other than through `Memory.read`,
`Memory.write` and the bounded trap loops. -/
theorem execOp_evolves (vm : VM) (op : OP) (instr : Nat) :
    vm.memory.Evolves (execOp vm op instr).1.memory := by
  cases op
  case ADD => exact vm.memory.evolves_refl
  case AND => exact vm.memory.evolves_refl
  case NOT => exact vm.memory.evolves_refl
  case BR =>
    unfold execOp execBR
    dsimp only
    split
    · exact vm.memory.evolves_refl
    · exact vm.memory.evolves_refl
  case JMP => exact vm.memory.evolves_refl
  case JSR =>
    unfold execOp execJSR
    dsimp only
    split
    · exact vm.memory.evolves_refl
    · exact vm.memory.evolves_refl
  case LD => exact vm.memory.evolves_read _ _
  case LDI =>
    exact Memory.evolves_trans (vm.memory.evolves_read _ _)
      (Memory.evolves_read _ _ _)
  case LDR => exact vm.memory.evolves_read _ _
  case LEA => exact vm.memory.evolves_refl
  case ST => exact vm.memory.evolves_write _ _
  case STI =>
    exact Memory.evolves_trans (vm.memory.evolves_read _ _)
      (Memory.evolves_write _ _ _)
  case STR => exact vm.memory.evolves_write _ _
  case RTI => exact vm.memory.evolves_refl
  case RES => exact vm.memory.evolves_refl
  case TRAP =>
    unfold execOp execTRAP
    dsimp only
    split
    · split
      · exact vm.memory.evolves_refl
      · exact vm.memory.evolves_refl
    · exact vm.memory.evolves_refl
    · exact putsLoop_evolves _ _ _ _ _
    · split
      · exact vm.memory.evolves_refl
      · exact vm.memory.evolves_refl
    · exact putspLoop_evolves _ _ _ _ _
    · exact vm.memory.evolves_refl
    · exact vm.memory.evolves_refl

/-- An early return out of an instruction arm is always `Halted` or
`HardInterrupt`; every other arm falls through to the keyboard check. -/
theorem execOp_early (vm : VM) (op : OP) (instr : Nat) :
    (execOp vm op instr).2 = none ∨
    (execOp vm op instr).2 = some STATUS.Halted ∨
    (execOp vm op instr).2 = some STATUS.HardInterrupt := by
  cases op
  case ADD => exact Or.inl rfl
  case AND => exact Or.inl rfl
  case NOT => exact Or.inl rfl
  case BR =>
    unfold execOp execBR
    dsimp only
    split
    · exact Or.inl rfl
    · exact Or.inl rfl
  case JMP => exact Or.inl rfl
  case JSR =>
    unfold execOp execJSR
    dsimp only
    split
    · exact Or.inl rfl
    · exact Or.inl rfl
  case LD => exact Or.inl rfl
  case LDI => exact Or.inl rfl
  case LDR => exact Or.inl rfl
  case LEA => exact Or.inl rfl
  case ST => exact Or.inl rfl
  case STI => exact Or.inl rfl
  case STR => exact Or.inl rfl
  case RTI => exact Or.inr (Or.inl rfl)
  case RES => exact Or.inr (Or.inl rfl)
  case TRAP =>
    unfold execOp execTRAP
    dsimp only
    split
    · split
      · exact Or.inr (Or.inr rfl)
      · exact Or.inl rfl
    · exact Or.inl rfl
    · exact Or.inl rfl
    · split
      · exact Or.inr (Or.inr rfl)
      · exact Or.inl rfl
    · exact Or.inl rfl
    · exact Or.inr (Or.inl rfl)
    · exact Or.inr (Or.inl rfl)

/-- Every instruction arm either leaves the condition register alone or
writes it through `Registers::set`. -/
theorem execOp_condOK (vm : VM) (op : OP) (instr : Nat)
    (h : condOK vm.registers.condition) :
    condOK (execOp vm op instr).1.registers.condition := by
  cases op
  case ADD => exact condOK_set _ _ _
  case AND => exact condOK_set _ _ _
  case NOT => exact condOK_set _ _ _
  case BR =>
    unfold execOp execBR
    dsimp only
    split
    · exact h
    · exact h
  case JMP => exact h
  case JSR =>
    unfold execOp execJSR
    dsimp only
    split
    · exact h
    · exact h
  case LD => exact condOK_set _ _ _
  case LDI => exact condOK_set _ _ _
  case LDR => exact condOK_set _ _ _
  case LEA => exact condOK_set _ _ _
  case ST => exact h
  case STI => exact h
  case STR => exact h
  case RTI => exact h
  case RES => exact h
  case TRAP =>
    unfold execOp execTRAP
    dsimp only
    split
    · split
      · exact h
      · exact condOK_set _ _ _
    · exact h
    · exact h
    · split
      · exact h
      · exact condOK_set _ _ _
    · exact h
    · exact h
    · exact h

/-- The memory after one full step is an evolution of the memory before. -/
theorem step_evolves (vm : VM) : vm.memory.Evolves (vm.step).1.memory := by
  unfold VM.step Registers.next
  dsimp only
  split
  · exact vm.memory.evolves_read _ _
  · split
    · exact Memory.evolves_trans (vm.memory.evolves_read _ _)
        (execOp_evolves _ _ _)
    · exact Memory.evolves_trans (vm.memory.evolves_read _ _)
        (execOp_evolves _ _ _)

/-- One step leaves the condition register holding exactly one flag. -/
theorem step_condOK (vm : VM) (h : condOK vm.registers.condition) :
    condOK (vm.step).1.registers.condition := by
  unfold VM.step Registers.next
  dsimp only
  split
  · exact h
  · split
    · exact execOp_condOK _ _ _ h
    · exact execOp_condOK _ _ _ h

/-- Auxiliary form of the status analysis, over the intermediate state that
`VM.step` builds after the fetch. -/
theorem stepAux_status (vm1 : VM) (op : OP) (instr : Nat) :
    (match (execOp vm1 op instr).2 with
     | some st => ((execOp vm1 op instr).1, st)
     | none => ((execOp vm1 op instr).1,
         if (execOp vm1 op instr).1.memory.kbstatus ≠ 0 then STATUS.SoftInterrupt
         else STATUS.Continue)).2 = STATUS.Halted ∨
    (match (execOp vm1 op instr).2 with
     | some st => ((execOp vm1 op instr).1, st)
     | none => ((execOp vm1 op instr).1,
         if (execOp vm1 op instr).1.memory.kbstatus ≠ 0 then STATUS.SoftInterrupt
         else STATUS.Continue)).2 = STATUS.HardInterrupt ∨
    (match (execOp vm1 op instr).2 with
     | some st => ((execOp vm1 op instr).1, st)
     | none => ((execOp vm1 op instr).1,
         if (execOp vm1 op instr).1.memory.kbstatus ≠ 0 then STATUS.SoftInterrupt
         else STATUS.Continue)).2 =
      (if (match (execOp vm1 op instr).2 with
           | some st => ((execOp vm1 op instr).1, st)
           | none => ((execOp vm1 op instr).1,
               if (execOp vm1 op instr).1.memory.kbstatus ≠ 0 then
                 STATUS.SoftInterrupt
               else STATUS.Continue)).1.memory.kbstatus ≠ 0 then
         STATUS.SoftInterrupt
       else STATUS.Continue) := by
  cases hE : (execOp vm1 op instr).2 with
  | none => exact Or.inr (Or.inr rfl)
  | some st =>
    rcases execOp_early vm1 op instr with h | h | h
    · rw [hE] at h
      exact absurd h (by simp)
    · rw [hE] at h
      exact Or.inl (by injection h)
    · rw [hE] at h
      exact Or.inr (Or.inl (by injection h))

theorem step_status_cases (vm : VM) :
    (vm.step).2 = STATUS.Halted ∨ (vm.step).2 = STATUS.HardInterrupt ∨
    (vm.step).2 = (if (vm.step).1.memory.kbstatus ≠ 0 then STATUS.SoftInterrupt
                   else STATUS.Continue) := by
  unfold VM.step Registers.next
  dsimp only
  split
  · exact Or.inl rfl
  · exact stepAux_status _ _ _

/-! ## Bit-level facts about sign_extend -/

theorem shiftRight_and_one (m i : Nat) :
    ((m >>> i) &&& 1 = 1) ↔ m.testBit i = true := by
  rw [Nat.and_one_is_mod, Nat.shiftRight_eq_div_pow, Nat.testBit_to_div_mod]
  simp

theorem lor_mod_idem (x b : Nat) :
    (((x ||| b) % 65536) ||| b) % 65536 = (x ||| b) % 65536 := by
  have h16 : (65536 : Nat) = 2 ^ 16 := by norm_num
  rw [h16]
  apply Nat.eq_of_testBit_eq
  intro i
  simp only [Nat.testBit_mod_two_pow, Nat.testBit_lor]
  by_cases hi : i < 16
  · simp only [hi, decide_True, Bool.true_and]
    cases x.testBit i <;> cases b.testBit i <;> rfl
  · simp [hi]

theorem testBit_lor_mod (x b k : Nat) (hk : k < 16) (h : x.testBit k = true) :
    ((x ||| b) % 65536).testBit k = true := by
  have h16 : (65536 : Nat) = 2 ^ 16 := by norm_num
  rw [h16, Nat.testBit_mod_two_pow, Nat.testBit_lor, h]
  simp [hk]

theorem sign_extend_idem (x n : Nat) :
    sign_extend (sign_extend x n) n = sign_extend x n := by
  unfold sign_extend
  by_cases h : (x >>> ((n + 15) % 16)) &&& 1 = 1
  · rw [if_pos h]
    have hk : (n + 15) % 16 < 16 := Nat.mod_lt _ (by norm_num)
    have hbit : (((x ||| (0xFFFF <<< (n % 16))) % 65536) >>>
        ((n + 15) % 16)) &&& 1 = 1 := by
      rw [shiftRight_and_one]
      exact testBit_lor_mod _ _ _ hk ((shiftRight_and_one x _).mp h)
    rw [if_pos hbit]
    exact lor_mod_idem _ _
  · rw [if_neg h, if_neg h]

theorem lor_ffff (x : Nat) (hx : x < 65536) : (x ||| 0xFFFF) = 0xFFFF := by
  apply Nat.eq_of_testBit_eq
  intro i
  rw [Nat.testBit_lor]
  by_cases hi : i < 16
  · have hb : (0xFFFF : Nat).testBit i = true := by
      have he : (0xFFFF : Nat) = 2 ^ 16 - 1 := by norm_num
      rw [he, Nat.testBit_two_pow_sub_one]
      simp [hi]
    simp [hb]
  · have hxb : x.testBit i = false := by
      apply Nat.testBit_lt_two_pow
      calc x < 65536 := hx
        _ = 2 ^ 16 := by norm_num
        _ ≤ 2 ^ i := Nat.pow_le_pow_right (by norm_num) (by omega)
    have hfb : (0xFFFF : Nat).testBit i = false := by
      apply Nat.testBit_lt_two_pow
      calc (0xFFFF : Nat) < 65536 := by norm_num
        _ = 2 ^ 16 := by norm_num
        _ ≤ 2 ^ i := Nat.pow_le_pow_right (by norm_num) (by omega)
    rw [hxb, hfb]
    rfl

theorem sign_extend_16_low (x : Nat) (hx : x < 0x8000) : sign_extend x 16 = x := by
  unfold sign_extend
  have h : x >>> ((16 + 15) % 16) = 0 := by
    rw [Nat.shiftRight_eq_div_pow]
    norm_num
    omega
  rw [h]
  norm_num

theorem sign_extend_16_high (x : Nat) (hx : x < 65536) (hh : 0x8000 ≤ x) :
    sign_extend x 16 = 0xFFFF := by
  unfold sign_extend
  have h1 : x >>> ((16 + 15) % 16) = 1 := by
    rw [Nat.shiftRight_eq_div_pow]
    norm_num
    omega
  rw [h1]
  norm_num
  rw [lor_ffff x hx]

/-- C5 (counterexample): `sign_extend` is not the identity at `n = 16`: on
`0x8000` the masked shift `0xFFFF << 16` acts as `0xFFFF << 0`, so the result
is `0xFFFF`, not `0x8000`. -/
theorem C5_sign_extend_cex :
    sign_extend 0x8000 16 = 0xFFFF ∧ (0xFFFF : Nat) ≠ 0x8000 := by decide

/-- C5 (amended): at `n = 16`, `sign_extend` is the identity exactly on words
with bit 15 clear and sends every word with bit 15 set to `0xFFFF`;
idempotence holds for every `x` and every bit width `n`. -/
theorem C5_sign_extend_amended :
    (∀ x : Nat, x < 0x8000 → sign_extend x 16 = x) ∧
    (∀ x : Nat, x < 65536 → 0x8000 ≤ x → sign_extend x 16 = 0xFFFF) ∧
    (∀ x n : Nat, sign_extend (sign_extend x n) n = sign_extend x n) :=
  ⟨sign_extend_16_low, sign_extend_16_high, sign_extend_idem⟩

/-- C5 witness: the amended statement evaluated at concrete inputs. -/
theorem C5_sign_extend_amended_witness :
    sign_extend 0x1234 16 = 0x1234 ∧ sign_extend 0x9234 16 = 0xFFFF ∧
    sign_extend (sign_extend 0x1F 5) 5 = sign_extend 0x1F 5 :=
  ⟨C5_sign_extend_amended.1 0x1234 (by decide),
   C5_sign_extend_amended.2.1 0x9234 (by decide) (by decide),
   C5_sign_extend_amended.2.2 0x1F 5⟩

/-- C3 (counterexample): the write-then-read round trip fails at the
keyboard-check address `0xFE04`: the read clears the cell first, so writing
5 and reading back yields 0. -/
theorem C3_write_read_cex :
    ((mem0.write 0xFE04 5).read [] 0xFE04).2.2 = 0 ∧ (0 : Nat) ≠ 5 := by decide

/-- C3 (amended): the write-then-read round trip holds for every address
outside the MMIO set {0xFE00, 0xFE02, 0xFE04}. -/
theorem C3_write_read_amended (m : Memory) (input : List Nat) (a v : Nat)
    (_ha : a < 65536) (h0 : a ≠ 0xFE00) (_h2 : a ≠ 0xFE02) (h4 : a ≠ 0xFE04) :
    ((m.write a v).read input a).2.2 = v := by
  rw [Memory.read_val_of_ne _ _ _ h0 h4, Memory.write_data]
  simp

/-- C3 witness: the amended round trip at a concrete address and value. -/
theorem C3_write_read_amended_witness :
    ((mem0.write 0x1234 42).read [] 0x1234).2.2 = 42 :=
  C3_write_read_amended mem0 [] 0x1234 42 (by decide) (by decide) (by decide)
    (by decide)

/-- C6: instruction fetch advances `PC` by exactly one modulo 2^16 (so `PC =
0xFFFF` wraps to 0) and returns the word read from memory at the
pre-increment `PC`, together with its decoded opcode. -/
theorem C6_fetch_increment (regs : Registers) (m : Memory) (input : List Nat) :
    (regs.next m input).1.program_count = (regs.program_count + 1) % 65536 ∧
    (regs.program_count = 0xFFFF → (regs.next m input).1.program_count = 0) ∧
    (regs.next m input).2.2.2.1 = (m.read input regs.program_count).2.2 ∧
    (regs.next m input).2.2.2.2 =
      OP.from_u16 ((m.read input regs.program_count).2.2 >>> 12) := by
  refine ⟨rfl, ?_, rfl, rfl⟩
  intro h
  show (regs.program_count + 1) % 65536 = 0
  rw [h]

/-- C6 witness: a fetch at `PC = 0xFFFF` leaves `PC = 0`. -/
theorem C6_fetch_increment_witness :
    (({ Registers.default with program_count := 0xFFFF } : Registers).next
      mem0 []).1.program_count = 0 :=
  (C6_fetch_increment { Registers.default with program_count := 0xFFFF }
    mem0 []).2.1 rfl

/-- C8 (code defect): on the single-HALT image, the step reports `Halted`,
but the run-loop body stores `halted = false`, so the `while !halted` guard
still holds and the loop keeps executing (the PC keeps advancing in later
iterations instead of the loop exiting). -/
theorem C8_run_loop_bug :
    (vmHalt.step).2 = STATUS.Halted ∧
    (runStep vmHalt).halted = false ∧
    (vmHalt.run 1).registers.program_count = 0x3001 ∧
    (vmHalt.run 2).registers.program_count = 0x3002 := by decide

/-- C9: running the image `[0x1021, 0xF025]` loaded at `0x3000` from
`R0 = 0xFFFF` wraps the addition to `R0 = 0`, sets `COND = Z`, and the second
step reports `Halted`. -/
theorem C9_arithmetic_wrap :
    (vmC9.step).2 = STATUS.Continue ∧
    (vmC9.step).1.registers.r0 = 0 ∧
    ((vmC9.step).1.step).2 = STATUS.Halted ∧
    ((vmC9.step).1.step).1.registers.r0 = 0 ∧
    ((vmC9.step).1.step).1.registers.condition = 2 := by decide

/-- The value a read returns is a `u16` whenever memory is well formed. -/
theorem Memory.read_val_lt (m : Memory) (input : List Nat) (addr : Nat)
    (hWF : m.WF) : (m.read input addr).2.2 < 65536 := by
  unfold Memory.read
  by_cases h : addr = 0xFE00
  · by_cases hc : (get_char input).1 ≠ 0 <;>
      simp [h, hc, Memory.store]
  · simp [h, Memory.store]
    by_cases h4 : addr = 0xFE04
    · simp [h4]
    · simp [h4, hWF addr]

theorem OP_from_u16_total : ∀ k, k < 16 → (OP.from_u16 k).isSome = true := by
  decide

/-- C10: opcode decoding is total on 16-bit words — the top nibble always
decodes, so a fetch from well-formed memory never yields an undefined
opcode and `step`'s decode-failure halt branch cannot be taken. -/
theorem C10_decode_total :
    (∀ w : Nat, w < 65536 → (OP.from_u16 (w >>> 12)).isSome = true) ∧
    (∀ (regs : Registers) (m : Memory) (input : List Nat), m.WF →
       ((regs.next m input).2.2.2.2).isSome = true) := by
  constructor
  · intro w hw
    apply OP_from_u16_total
    rw [Nat.shiftRight_eq_div_pow]
    have h12 : (2 : Nat) ^ 12 = 4096 := by norm_num
    rw [h12]
    omega
  · intro regs m input hWF
    show (OP.from_u16 ((m.read input regs.program_count).2.2 >>> 12)).isSome
      = true
    apply OP_from_u16_total
    have hlt := m.read_val_lt input regs.program_count hWF
    rw [Nat.shiftRight_eq_div_pow]
    have h12 : (2 : Nat) ^ 12 = 4096 := by norm_num
    rw [h12]
    omega

/-- C10 witness: decoding a concrete word, and fetching from the all-zero
memory. -/
theorem C10_decode_total_witness :
    (OP.from_u16 (0xABCD >>> 12)).isSome = true ∧
    ((Registers.default.next mem0 []).2.2.2.2).isSome = true :=
  ⟨C10_decode_total.1 0xABCD (by decide),
   C10_decode_total.2 Registers.default mem0 []
     (fun a => by simp [mem0])⟩

/-- C4: after every `Registers::set` of a value `v`, the condition register
holds exactly one of N = 4, Z = 2, P = 1, chosen by the signed sign of `v`
(zero gives Z, bit 15 set gives N, otherwise P); the initial state has
`COND = Z`; and every step preserves the exactly-one-flag invariant. -/
theorem C4_condition_flags :
    (∀ (regs : Registers) (r v : Nat), v < 65536 →
       (regs.set r v).condition =
         (if v = 0 then 2 else if v.testBit 15 then 4 else 1)) ∧
    (∀ (regs : Registers) (r v : Nat), condOK ((regs.set r v).condition)) ∧
    Registers.default.condition = 2 ∧
    (∀ vm : VM, condOK vm.registers.condition →
       condOK ((vm.step).1.registers.condition)) := by
  refine ⟨?_, condOK_set, rfl, step_condOK⟩
  intro regs r v hv
  rw [Registers.set_condition]
  have hbit : (Nat.testBit v 15 = true) ↔ 0x8000 ≤ v := by
    rw [Nat.testBit_to_div_mod]
    have h15 : (2 : Nat) ^ 15 = 32768 := by norm_num
    rw [h15]
    simp only [decide_eq_true_eq]
    omega
  by_cases h0 : v = 0
  · simp [h0]
  · by_cases h8 : 0x8000 ≤ v
    · simp [h0, h8, hbit.mpr h8]
    · have hf : Nat.testBit v 15 = false := by
        cases hb : Nat.testBit v 15
        · rfl
        · exact absurd (hbit.mp hb) h8
      simp [h0, h8, hf]

/-- C4 witness: the sign rule at `v = 5`, the exactly-one-flag fact, and
invariant preservation across a concrete step. -/
theorem C4_condition_flags_witness :
    (Registers.default.set 0 5).condition =
      (if (5 : Nat) = 0 then 2 else if Nat.testBit 5 15 then 4 else 1) ∧
    condOK ((Registers.default.set 1 0).condition) ∧
    condOK ((vmHalt.step).1.registers.condition) :=
  ⟨C4_condition_flags.1 Registers.default 0 5 (by decide),
   C4_condition_flags.2.1 Registers.default 1 0,
   C4_condition_flags.2.2.2 vmHalt (Or.inr (Or.inl rfl))⟩

/-- C2 (counterexample): a step can poll `0xFE00` and still return
`Continue`: the LDI at `0xFDFF` first reads `0xFE00` (a poll, recorded in
the trace) and then reads another address, which clears the keyboard-check
word before the final status test. -/
theorem C2_soft_interrupt_cex :
    (vmLDI.step).2 = STATUS.Continue ∧
    Access.read 0xFE00 ∈ (vmLDI.step).1.memory.trace := by decide

/-- C2 (amended): barring a halt or hard interrupt, a step returns
`SoftInterrupt` exactly when the keyboard-check word computed from the
step's whole access sequence is nonzero — each read rewrites it (1 for a
poll of `0xFE00`, 0 for any other address) and a store to `0xFE04`
overwrites it — so a poll followed by a further read yields `Continue`,
not `SoftInterrupt`. -/
theorem C2_soft_interrupt_amended (vm : VM)
    (htr : vm.memory.trace = [])
    (h1 : (vm.step).2 ≠ STATUS.Halted)
    (h2 : (vm.step).2 ≠ STATUS.HardInterrupt) :
    ((vm.step).2 = STATUS.SoftInterrupt ↔
      flagFold (vm.memory.data 0xFE04) ((vm.step).1.memory.trace) ≠ 0) := by
  rcases step_status_cases vm with h | h | h
  · exact absurd h h1
  · exact absurd h h2
  · obtain ⟨t, ht, hf⟩ := step_evolves vm
    have hft : (vm.step).1.memory.trace = t := by
      rw [ht, htr]
      simp
    rw [h, hft, ← hf]
    show (if (vm.step).1.memory.kbstatus ≠ 0 then STATUS.SoftInterrupt
          else STATUS.Continue) = STATUS.SoftInterrupt ↔
      (vm.step).1.memory.data 0xFE04 ≠ 0
    unfold Memory.kbstatus
    by_cases hk : (vm.step).1.memory.data 0xFE04 ≠ 0
    · simp [hk]
    · simp [hk]

/-- C2 witness: the amended equivalence at the concrete LDI-poll state. -/
theorem C2_soft_interrupt_amended_witness :
    ((vmLDI.step).2 = STATUS.SoftInterrupt ↔
      flagFold (vmLDI.memory.data 0xFE04) ((vmLDI.step).1.memory.trace) ≠ 0) :=
  C2_soft_interrupt_amended vmLDI rfl (by decide) (by decide)

/-- C1 (counterexample): suspension on an input-less GETC is not fully
atomic: the step returns `HardInterrupt` with `PC` restored to the TRAP
address and `R0` unchanged, but `R7` — overwritten with the post-fetch `PC`
before the vector dispatch — visibly changes from 0 to `0x3001`. -/
theorem C1_suspension_cex :
    (vmGetc.step).2 = STATUS.HardInterrupt ∧
    (vmGetc.step).1.registers.program_count = 0x3000 ∧
    (vmGetc.step).1.registers.r0 = 0 ∧
    vmGetc.registers.r7 = 0 ∧
    (vmGetc.step).1.registers.r7 = 0x3001 := by decide

/-- C1 (amended): when a fetched TRAP 0x20/0x23 finds no input, the step
returns `HardInterrupt`, restores `PC` to the address of the un-executed
TRAP, and leaves `R0`–`R6`, `COND`, the output and every non-MMIO memory
cell unchanged — but `R7` is visibly set to the post-fetch `PC`. -/
theorem C1_suspension_amended (vm : VM) (m1 : Memory) (input1 : List Nat)
    (instr : Nat)
    (hpc : vm.registers.program_count < 65536)
    (hr : vm.memory.read vm.input vm.registers.program_count
            = (m1, input1, instr))
    (hop : instr >>> 12 = 15)
    (hvec : instr &&& 0xFF = 0x20 ∨ instr &&& 0xFF = 0x23)
    (hc : (get_char input1).1 = 0) :
    (vm.step).2 = STATUS.HardInterrupt ∧
    (vm.step).1.registers.program_count = vm.registers.program_count ∧
    (vm.step).1.registers.r0 = vm.registers.r0 ∧
    (vm.step).1.registers.r1 = vm.registers.r1 ∧
    (vm.step).1.registers.r2 = vm.registers.r2 ∧
    (vm.step).1.registers.r3 = vm.registers.r3 ∧
    (vm.step).1.registers.r4 = vm.registers.r4 ∧
    (vm.step).1.registers.r5 = vm.registers.r5 ∧
    (vm.step).1.registers.r6 = vm.registers.r6 ∧
    (vm.step).1.registers.condition = vm.registers.condition ∧
    (vm.step).1.registers.r7 = (vm.registers.program_count + 1) % 65536 ∧
    (vm.step).1.output = vm.output ∧
    (∀ a, a ≠ 0xFE00 → a ≠ 0xFE02 → a ≠ 0xFE04 →
       (vm.step).1.memory.data a = vm.memory.data a) := by
  unfold VM.step Registers.next
  dsimp only
  rw [hr]
  dsimp only
  rw [hop]
  dsimp only [OP.from_u16]
  unfold execOp execTRAP
  dsimp only
  rcases hvec with h20 | h23
  · rw [h20]
    dsimp only [TRAP.from_u16]
    rw [hc]
    simp only [if_pos rfl]
    refine ⟨rfl, ?_, rfl, rfl, rfl, rfl, rfl, rfl, rfl, rfl, rfl, rfl, ?_⟩
    · show ((vm.registers.program_count + 1) % 65536 + 65535) % 65536
        = vm.registers.program_count
      omega
    · intro a h0 h2 h4
      have hm := Memory.read_data_of_ne vm.memory vm.input
        vm.registers.program_count a h0 h2 h4
      rw [hr] at hm
      exact hm
  · rw [h23]
    dsimp only [TRAP.from_u16]
    rw [hc]
    simp only [if_pos rfl]
    refine ⟨rfl, ?_, rfl, rfl, rfl, rfl, rfl, rfl, rfl, rfl, rfl, rfl, ?_⟩
    · show ((vm.registers.program_count + 1) % 65536 + 65535) % 65536
        = vm.registers.program_count
      omega
    · intro a h0 h2 h4
      have hm := Memory.read_data_of_ne vm.memory vm.input
        vm.registers.program_count a h0 h2 h4
      rw [hr] at hm
      exact hm

/-- C1 witness: the amended statement at the concrete no-input GETC state. -/
theorem C1_suspension_amended_witness :
    (vmGetc.step).2 = STATUS.HardInterrupt ∧
    (vmGetc.step).1.registers.program_count = vmGetc.registers.program_count :=
  ⟨(C1_suspension_amended vmGetc _ _ _ (by decide) rfl (by decide)
      (Or.inl (by decide)) (by decide)).1,
   (C1_suspension_amended vmGetc _ _ _ (by decide) rfl (by decide)
      (Or.inl (by decide)) (by decide)).2.1⟩

/-- The loader never writes at or above `2^16` when the word budget fits the
address space. -/
theorem load_words_data_high :
    ∀ (bytes : List Nat) (m : Memory) (addr offset max_offset : Nat),
      addr + max_offset ≤ 65536 →
      ∀ a, 65536 ≤ a →
        (load_words m addr offset max_offset bytes).data a = m.data a
  | [], _, _, _, _, _, _, _ => rfl
  | [_], _, _, _, _, _, _, _ => rfl
  | b1 :: b2 :: rest, m, addr, offset, max_offset, h, a, ha => by
    unfold load_words
    split
    · rename_i hlt
      rw [load_words_data_high rest _ addr (offset + 1) max_offset h a ha,
        Memory.write_data]
      have hne : a ≠ addr + offset := by omega
      simp [hne]
    · rfl

/-- C7 (counterexample): neither alleged fatal case is an error: an image
with a partial trailing byte after the origin loads successfully, and so
does an image whose words would run past `0xFFFF` (loading stops cleanly). -/
theorem C7_loader_cex :
    (read_image mem0 [0x30, 0x00, 0xAB]).isSome = true ∧
    (read_image mem0 [0xFF, 0xFE, 1, 2, 3, 4, 5, 6, 7, 8]).isSome = true := by
  decide

/-- C7 (amended): the loader fails exactly when the stream is too short to
hold the two-byte origin; a partial trailing byte is dropped (end of
stream), and loading stops cleanly at the end of the address space, leaving
every address past `0xFFFF` untouched. -/
theorem C7_loader_amended :
    (∀ (m : Memory) (image : List Nat),
       read_image m image = none ↔ image.length < 2) ∧
    (∀ (m mr : Memory) (b1 b2 addr : Nat) (rest : List Nat),
       b1 < 256 → b2 < 256 →
       read_image m (b1 :: b2 :: rest) = some (mr, addr) →
       ∀ a, 65536 ≤ a → mr.data a = m.data a) := by
  constructor
  · intro m image
    match image with
    | [] => simp [read_image]
    | [b] => simp [read_image]
    | b1 :: b2 :: rest =>
      simp [read_image]
  · intro m mr b1 b2 addr rest hb1 hb2 hsome a ha
    simp only [read_image, Option.some.injEq, Prod.mk.injEq] at hsome
    obtain ⟨hmr, _⟩ := hsome
    rw [← hmr]
    apply load_words_data_high rest m (b1 * 256 + b2) 0
      ((65536 - (b1 * 256 + b2)) % 65536) _ a ha
    have hle : (65536 - (b1 * 256 + b2)) % 65536 ≤ 65536 - (b1 * 256 + b2) :=
      Nat.mod_le _ _
    omega

/-- C7 witness: the origin-failure equivalence on a one-byte stream, and a
clean stop at the end of the address space for origin `0xFFFE`. -/
theorem C7_loader_amended_witness :
    (read_image mem0 [0x30] = none ↔ ([0x30] : List Nat).length < 2) ∧
    (load_words mem0 (0xFF * 256 + 0xFE) 0
        ((65536 - (0xFF * 256 + 0xFE)) % 65536) [1, 2, 3, 4]).data 70000
      = mem0.data 70000 :=
  ⟨C7_loader_amended.1 mem0 [0x30],
   C7_loader_amended.2 mem0 _ 0xFF 0xFE _ [1, 2, 3, 4] (by decide) (by decide)
     rfl 70000 (by decide)⟩
